import Mathlib

/-!
Verification of the saucepan source-position tracking library.

Shallow embedding of the Rust sources (`src/source.rs`, `src/span.rs`,
`src/index_types.rs`, `src/shims.rs`).  Source text is modelled as a list of
bytes (`List Nat`, each entry < 256); `ByteIndex`/`LineIndex` values are
modelled as `Nat`; fallible operations return `Except`/`Option`, where the
error/none branch models a Rust `Err`/panic as noted at each definition.
-/

/-- Handle that points to a file in the database (`SourceID(NonZeroU32)` in
`source.rs`).  The stored value is the index plus the `OFFSET` of 1, so that
the first id is non-zero. -/
structure SourceID where
  val : Nat
  deriving DecidableEq, Repr

/-- `SourceID::new(index)` stores `index + OFFSET` with `OFFSET = 1`. -/
def SourceID.new (index : Nat) : SourceID := ⟨index + 1⟩

/-- `SourceID::get`: recover the index into `Sources::sources`. -/
def SourceID.get (s : SourceID) : Nat := s.val - 1

/-- A `Span` holds the starting byte index, the spanned fragment (a slice of
the source text, modelled as the byte list itself) and the id of the owning
source (`span.rs`, struct `Span`). -/
structure Span where
  start : Nat
  fragment : List Nat
  source_id : SourceID
  deriving DecidableEq, Repr

/-- Error for a line index past the last line (`error.rs`,
`LineIndexOutOfBoundsError { given, max }`). -/
structure LineIndexOutOfBoundsError where
  given : Nat
  max : Nat
  deriving DecidableEq, Repr

/-- A file stored in the database (`source.rs`, struct `Source`): name, source
text, precomputed line-start byte indices, and the id under which the source
is registered. -/
structure Source where
  name : String
  text : List Nat
  line_starts : List Nat
  source_id : SourceID
  deriving DecidableEq, Repr

/-- A database of source files (`source.rs`, struct `Sources`). -/
structure Sources where
  sources : List Source
  deriving DecidableEq, Repr

/-- Byte indices of every line-feed byte (`'\n'` = byte 10) of the text,
ascending; the accumulator `i` is the byte index of the head of the list.
Models `source.match_indices('\n').map(|(i, _)| i)` from `source.rs`. -/
def newlineIdxs : List Nat → Nat → List Nat
  | [], _ => []
  | b :: rest, i =>
    if b = 10 then i :: newlineIdxs rest (i + 1) else newlineIdxs rest (i + 1)

/-- The free function `line_starts` of `source.rs` (renamed here because the
`Source` structure has a field of that name): index 0 followed by the index
one past each line-feed byte, i.e.
`std::iter::once(0).chain(source.match_indices('\n').map(|(i, _)| i + 1))`. -/
def lineStarts (source : List Nat) : List Nat :=
  0 :: (newlineIdxs source 0).map (· + 1)

/-- `Source::new(name, source, source_id)`: precomputes `line_starts`. -/
def Source.new (name : String) (source : List Nat) (source_id : SourceID) : Source :=
  { name := name, text := source, line_starts := lineStarts source, source_id := source_id }

/-- `Source::update(text)`: replace the text and recompute `line_starts`;
`name` and `source_id` are untouched. -/
def Source.update (s : Source) (text : List Nat) : Source :=
  { s with text := text, line_starts := lineStarts text }

/-- `Source::last_line_index`: `LineIndex::from(self.line_starts.len())`. -/
def Source.last_line_index (s : Source) : Nat := s.line_starts.length

/-- `Source::line_start(line_index)`: compares `line_index` with
`last_line_index` — `Less` gives `line_starts[line_index]`, `Equal` gives the
text length, `Greater` is a `LineIndexOutOfBoundsError`. -/
def Source.line_start (s : Source) (line_index : Nat) :
    Except LineIndexOutOfBoundsError Nat :=
  if line_index < s.last_line_index then
    Except.ok (s.line_starts.getD line_index 0)
  else if line_index = s.last_line_index then
    Except.ok s.text.length
  else
    Except.error { given := line_index, max := s.last_line_index }

/-- Loop of Rust `slice::binary_search_by` (as invoked by
`self.line_starts.binary_search(&byte_index)` in `Source::line_index`):
halve `[left, right)` until the probe hits `k` (`Except.ok mid`) or the
interval empties (`Except.error left`, the insertion point). -/
def bsLoop (xs : List Nat) (k left right : Nat) : Except Nat Nat :=
  if _h : left < right then
    let mid := left + (right - left) / 2
    let v := xs.getD mid 0
    if v < k then bsLoop xs k (mid + 1) right
    else if k < v then bsLoop xs k left mid
    else Except.ok mid
  else
    Except.error left
termination_by right - left
decreasing_by
  all_goals omega

/-- Rust `slice::binary_search(&k)` over the whole list. -/
def binary_search (xs : List Nat) (k : Nat) : Except Nat Nat :=
  bsLoop xs k 0 xs.length

/-- `Source::line_index(byte_index)` (`source.rs` lines 485–491): binary-search
`line_starts`; an exact hit is that line, otherwise the insertion point minus
one.  Note the function is total — it never returns an error. -/
def Source.line_index (s : Source) (byte_index : Nat) : Nat :=
  match binary_search s.line_starts byte_index with
  | Except.ok line => line
  | Except.error next_line => next_line - 1

/-- Models an in-range `&text[a..b]` of `str::slice` as used by
`Source::line_span` (there `a ≤ b ≤ text.len()` always holds). -/
def listSlice (xs : List Nat) (a b : Nat) : List Nat :=
  (xs.drop a).take (b - a)

/-- `Span::with_start(start, fragment, source_id)` (`span.rs`). -/
def Span.with_start (start : Nat) (fragment : List Nat) (source_id : SourceID) : Span :=
  { start := start, fragment := fragment, source_id := source_id }

/-- `Source::line_span(line_index)`: fetch this and the next line start, then
build `Span::with_start(ByteIndex::default(), text.slice(start..next), id)` —
note the span's `start` field is `ByteIndex::default()`, i.e. 0. -/
def Source.line_span (s : Source) (line_index : Nat) :
    Except LineIndexOutOfBoundsError Span :=
  match s.line_start line_index with
  | Except.error e => Except.error e
  | Except.ok ls =>
    match s.line_start (line_index + 1) with
    | Except.error e => Except.error e
    | Except.ok nls => Except.ok (Span.with_start 0 (listSlice s.text ls nls) s.source_id)

/-- `Span::len`: length of the fragment. -/
def Span.len (s : Span) : Nat := s.fragment.length

/-- `Span::end`: `self.start + ByteOffset(self.len() as i64)`. -/
def Span.end_ (s : Span) : Nat := s.start + s.len

/-- `Span::from_start_end(start, end)` (`span.rs` lines 251–264): rebuild a
slice of the original input from raw pointers.  `ctx` is the full text of the
owning source (the code reaches it by offsetting the fragment pointer back by
`self.start`).  The new fragment is built by
`slice::from_raw_parts(orig_input_ptr.offset(start), end)` — its length is
`end`, not `end - start`. -/
def Span.from_start_end (ctx : List Nat) (s : Span) (start end_ : Nat) : Span :=
  { start := start, fragment := (ctx.drop start).take end_, source_id := s.source_id }

/-- `Span::merge(other)` (`span.rs` lines 281–290): take the minimum start and
the maximum end and rebuild via `from_start_end`. -/
def Span.merge (ctx : List Nat) (s other : Span) : Span :=
  Span.from_start_end ctx s (min s.start other.start) (max (s.end_) (other.end_))

/-- Rust `str::is_char_boundary(index)`: true at index 0; otherwise true when
the byte at the index exists and is not a UTF-8 continuation byte (as an `i8`
it is `>= -0x40`, i.e. below 0x80 or at 0xC0 and above), or when the index
equals the length. -/
def isCharBoundary (xs : List Nat) (i : Nat) : Bool :=
  if i = 0 then true
  else
    match xs[i]? with
    | none => decide (i = xs.length)
    | some b => decide (b < 128) || decide (192 ≤ b)

/-- Models `&fragment[a..b]` for a `&str` fragment (`nom::Slice` and the
`shims.rs` `Slice` both index with `&self[range]`): Rust returns the
sub-slice when `a <= b` and both `a` and `b` are char boundaries of the
fragment (`str::is_char_boundary`; an end past the fragment is a boundary
only when it equals the length) and panics otherwise — on an inverted range,
a range past the end, or an endpoint inside a multi-byte character; `none`
models that panic. -/
def strSlice? (xs : List Nat) (a b : Nat) : Option (List Nat) :=
  if a ≤ b ∧ isCharBoundary xs a = true ∧ isCharBoundary xs b = true then
    some ((xs.drop a).take (b - a))
  else none

/-- `Span::slice(range)` for `Range<usize>` (`impl_slice_range!`, `span.rs`
lines 767–795): slice the fragment, compute `consumed_len` as the pointer
offset of the new fragment (which equals `a`), and advance `start` by it;
`none` models the panic propagated from slicing the fragment out of range. -/
def Span.slice? (s : Span) (a b : Nat) : Option Span :=
  match strSlice? s.fragment a b with
  | none => none
  | some next_fragment =>
    some { start := s.start + a, fragment := next_fragment, source_id := s.source_id }

/-- Models `memchr::memrchr(b, xs)` (external `memchr` crate): the index of
the last occurrence of byte `b` in `xs`, if any. -/
def memrchr (b : Nat) (xs : List Nat) : Option Nat :=
  match xs.reverse.findIdx? (fun c => c = b) with
  | none => none
  | some j => some (xs.length - 1 - j)

/-- `Span::get_columns_and_bytes_before` (`span.rs` lines 342–360): walk the
fragment pointer back by `start` bytes to recover the bytes of the owning
source (`ctx`) that precede the span, take the 1-based byte column from the
last `'\n'` among them, and return the bytes after that `'\n'`. -/
def Span.get_columns_and_bytes_before (ctx : List Nat) (s : Span) : Nat × List Nat :=
  let before_self := ctx.take s.start
  let column :=
    match memrchr 10 before_self with
    | none => s.start + 1
    | some pos => s.start - pos
  (column, before_self.drop (s.start - (column - 1)))

/-- `Span::get_column`. -/
def Span.get_column (ctx : List Nat) (s : Span) : Nat :=
  (s.get_columns_and_bytes_before ctx).1

/-- Tail length that the UTF-8 skip decoder consumes after a leading byte:
0 below 0x80, 1 below 0xE0, 2 below 0xF0, else 3. -/
def charTail (b : Nat) : Nat :=
  if b < 128 then 0 else if b < 224 then 1 else if b < 240 then 2 else 3

/-- Modelled from the `bytecount` crate (external dependency): `num_chars` is
specified to return the number of UTF-8 encoded Unicode codepoints of the
slice, computed there by a SIMD-friendly algorithm; modelled here as a
sequential UTF-8 decoder that counts one codepoint per leading byte. -/
def num_chars : List Nat → Nat
  | [] => 0
  | b :: rest => 1 + num_chars (rest.drop (charTail b))
termination_by xs => xs.length
decreasing_by
  simp only [List.length_cons]
  have := List.length_drop (charTail b) rest
  omega

/-- `bytecount::naive_num_chars` (external dependency), translated from its
one-line implementation `bytes.iter().filter(|&&b| (b as i8) >= -0x40).count()`:
count the bytes that are not UTF-8 continuation bytes (as a `u8`, `-0x40` is
0xC0, and the signed comparison holds exactly for bytes below 0x80 or at
0xC0 and above). -/
def naive_num_chars (xs : List Nat) : Nat :=
  (xs.filter (fun b => decide (b < 128) || decide (192 ≤ b))).length

/-- `Span::get_utf8_column` (`span.rs` lines 408–411): `num_chars` of the
bytes between the line start and the span, plus one. -/
def Span.get_utf8_column (ctx : List Nat) (s : Span) : Nat :=
  num_chars (s.get_columns_and_bytes_before ctx).2 + 1

/-- `Span::naive_get_utf8_column` (`span.rs` lines 435–438). -/
def Span.naive_get_utf8_column (ctx : List Nat) (s : Span) : Nat :=
  naive_num_chars (s.get_columns_and_bytes_before ctx).2 + 1

/-- `Sources::update(source_id, source)` (`source.rs` lines 135–143):
`get_unchecked_mut(source_id).update(source)`; the unchecked indexing panics
for an unregistered id, modelled by `none`. -/
def Sources.update (ss : Sources) (source_id : SourceID) (source : List Nat) :
    Option Sources :=
  match ss.sources.get? source_id.get with
  | none => none
  | some s => some { sources := ss.sources.set source_id.get (s.update source) }

/-- A byte is a UTF-8 continuation byte: `0x80 ≤ b < 0xC0`. -/
def IsCont (b : Nat) : Prop := 128 ≤ b ∧ b < 192

/-- Well-formed UTF-8 byte sequences: a sequence of scalar encodings, each a
leading byte followed by the matching number of continuation bytes. -/
inductive Utf8Valid : List Nat → Prop where
  | nil : Utf8Valid []
  | one {b rest} : b < 128 → Utf8Valid rest → Utf8Valid (b :: rest)
  | two {b c1 rest} : 194 ≤ b → b < 224 → IsCont c1 → Utf8Valid rest →
      Utf8Valid (b :: c1 :: rest)
  | three {b c1 c2 rest} : 224 ≤ b → b < 240 → IsCont c1 → IsCont c2 →
      Utf8Valid rest → Utf8Valid (b :: c1 :: c2 :: rest)
  | four {b c1 c2 c3 rest} : 240 ≤ b → b < 245 → IsCont c1 → IsCont c2 →
      IsCont c3 → Utf8Valid rest → Utf8Valid (b :: c1 :: c2 :: c3 :: rest)

/-- Claimed behaviour of `Source::line_index`, written from the specification
text for comparison with the code: a fallible lookup that fails (`none`) iff
the byte index exceeds the text length, or equals it while the text does not
end in a line feed, and otherwise returns the line whose start is the
greatest `line_starts` entry at most the byte index. -/
def line_index_claimed (s : Source) (byte_index : Nat) : Option Nat :=
  if s.text.length < byte_index ∨
      (byte_index = s.text.length ∧ s.text.getLast? ≠ some 10) then
    none
  else
    some ((s.line_starts.filter (fun v => v ≤ byte_index)).length - 1)

/-! ## Concrete instances used by witnesses and counterexamples -/

/-- The bytes of `"foo\nbar\r\n\nbaz"`, the scenario text of the spec and of
the `line_starts` test in `source.rs`. -/
def demoText : List Nat := [102, 111, 111, 10, 98, 97, 114, 13, 10, 10, 98, 97, 122]

/-- The demo source, registered under index 0. -/
def demoSource : Source := Source.new "test" demoText (SourceID.new 0)

/-- The bytes of `"abcdefghijklm"`: a 13-byte single-line source text. -/
def ctx13 : List Nat := [97, 98, 99, 100, 101, 102, 103, 104, 105, 106, 107, 108, 109]

/-- The span of bytes `[1, 5)` of `ctx13` (the span `a` of `test_merge` and
`test_disjoint` in `tests.rs`). -/
def mergeA : Span := { start := 1, fragment := listSlice ctx13 1 5, source_id := SourceID.new 0 }

/-- The span of bytes `[3, 10)` of `ctx13` (the span `b` of `test_merge`). -/
def mergeB : Span := { start := 3, fragment := listSlice ctx13 3 10, source_id := SourceID.new 0 }

/-- The bytes of `"メカジキ"`: four katakana of three bytes each. -/
def kanaCtx : List Nat := [227, 131, 161, 227, 130, 171, 227, 130, 184, 227, 130, 173]

/-- The suffix `"ジキ"` of the kana text as a span starting at byte 6. -/
def kanaSpan : Span := { start := 6, fragment := kanaCtx.drop 6, source_id := SourceID.new 0 }

/-- The bytes of `"hello world!"`. -/
def helloText : List Nat := [104, 101, 108, 108, 111, 32, 119, 111, 114, 108, 100, 33]

/-- The whole of `"hello world!"` as a span. -/
def helloSpan : Span := { start := 0, fragment := helloText, source_id := SourceID.new 0 }

/-- The whole kana text as a span. -/
def kanaFull : Span := { start := 0, fragment := kanaCtx, source_id := SourceID.new 0 }

/-- A registry holding two sources, for the update-frame witness. -/
def twoSources : Sources :=
  { sources := [Source.new "a" [104, 105] (SourceID.new 0),
                Source.new "b" [10] (SourceID.new 1)] }

/-! ## Properties of `lineStarts` -/

theorem newlineIdxs_mem (text : List Nat) (j i : Nat) :
    i ∈ newlineIdxs text j ↔ ∃ k, i = j + k ∧ text[k]? = some 10 := by
  induction text generalizing j i with
  | nil => simp [newlineIdxs]
  | cons b rest ih =>
    simp only [newlineIdxs]
    by_cases hb : b = 10
    · rw [if_pos hb]
      simp only [List.mem_cons, ih]
      constructor
      · rintro (rfl | ⟨k, rfl, hk⟩)
        · exact ⟨0, by omega, by simp [hb]⟩
        · exact ⟨k + 1, by omega, by simpa using hk⟩
      · rintro ⟨k, rfl, hk⟩
        cases k with
        | zero => left; omega
        | succ k => right; exact ⟨k, by omega, by simpa using hk⟩
    · rw [if_neg hb, ih]
      constructor
      · rintro ⟨k, rfl, hk⟩
        exact ⟨k + 1, by omega, by simpa using hk⟩
      · rintro ⟨k, rfl, hk⟩
        cases k with
        | zero => simp at hk; omega
        | succ k => exact ⟨k, by omega, by simpa using hk⟩

theorem newlineIdxs_ge (text : List Nat) (j : Nat) :
    ∀ x ∈ newlineIdxs text j, j ≤ x := by
  intro x hx
  obtain ⟨k, rfl, -⟩ := (newlineIdxs_mem text j x).mp hx
  omega

theorem newlineIdxs_lt (text : List Nat) (j : Nat) :
    ∀ x ∈ newlineIdxs text j, x < j + text.length := by
  intro x hx
  obtain ⟨k, rfl, hk⟩ := (newlineIdxs_mem text j x).mp hx
  have : k < text.length := by
    by_contra hge
    rw [List.getElem?_eq_none (by omega)] at hk
    exact Option.noConfusion hk
  omega

theorem newlineIdxs_sorted (text : List Nat) (j : Nat) :
    (newlineIdxs text j).Pairwise (· < ·) := by
  induction text generalizing j with
  | nil => simp [newlineIdxs]
  | cons b rest ih =>
    simp only [newlineIdxs]
    split
    · refine List.Pairwise.cons ?_ (ih (j + 1))
      intro x hx
      have := newlineIdxs_ge rest (j + 1) x hx
      omega
    · exact ih (j + 1)

theorem lineStarts_sorted (text : List Nat) : (lineStarts text).Pairwise (· < ·) := by
  unfold lineStarts
  refine List.Pairwise.cons ?_ ?_
  · intro x hx
    simp only [List.mem_map] at hx
    obtain ⟨y, -, rfl⟩ := hx
    omega
  · exact List.Pairwise.map _ (fun a b hab => by omega) (newlineIdxs_sorted text 0)

theorem lineStarts_length_pos (text : List Nat) : 0 < (lineStarts text).length := by
  simp [lineStarts]

theorem lineStarts_head (text : List Nat) : (lineStarts text).getD 0 0 = 0 := rfl

theorem lineStarts_le (text : List Nat) : ∀ x ∈ lineStarts text, x ≤ text.length := by
  intro x hx
  simp only [lineStarts, List.mem_cons, List.mem_map] at hx
  rcases hx with rfl | ⟨y, hy, rfl⟩
  · omega
  · have := newlineIdxs_lt text 0 y hy
    omega

theorem lineStarts_mem (text : List Nat) (n : Nat) :
    n ∈ lineStarts text ↔ n = 0 ∨ ∃ k, n = k + 1 ∧ text[k]? = some 10 := by
  simp only [lineStarts, List.mem_cons, List.mem_map, newlineIdxs_mem]
  constructor
  · rintro (rfl | ⟨y, ⟨k, rfl, hk⟩, rfl⟩)
    · exact Or.inl rfl
    · exact Or.inr ⟨k, by omega, hk⟩
  · rintro (rfl | ⟨k, rfl, hk⟩)
    · exact Or.inl rfl
    · exact Or.inr ⟨k, ⟨k, by omega, hk⟩, by omega⟩

/-! ## Monotone access to sorted lists -/

theorem sorted_getD_lt (xs : List Nat) (hs : xs.Pairwise (· < ·)) {a b : Nat}
    (hab : a < b) (hb : b < xs.length) : xs.getD a 0 < xs.getD b 0 := by
  rw [List.getD_eq_getElem xs 0 (lt_trans hab hb), List.getD_eq_getElem xs 0 hb]
  exact List.pairwise_iff_getElem.mp hs a b (lt_trans hab hb) hb hab

theorem sorted_getD_le (xs : List Nat) (hs : xs.Pairwise (· < ·)) {a b : Nat}
    (hab : a ≤ b) (hb : b < xs.length) : xs.getD a 0 ≤ xs.getD b 0 := by
  rcases Nat.eq_or_lt_of_le hab with rfl | h
  · exact le_refl _
  · exact le_of_lt (sorted_getD_lt xs hs h hb)

theorem bsLoop_ok_err (xs : List Nat) (k : Nat) (hs : xs.Pairwise (· < ·)) :
    ∀ fuel left right, right - left ≤ fuel → left ≤ right → right ≤ xs.length →
    (∀ j, j < left → xs.getD j 0 < k) →
    (∀ j, right ≤ j → j < xs.length → k < xs.getD j 0) →
    (∀ m, bsLoop xs k left right = Except.ok m → m < xs.length ∧ xs.getD m 0 = k) ∧
    (∀ n, bsLoop xs k left right = Except.error n → n ≤ xs.length ∧
      (∀ j, j < n → xs.getD j 0 < k) ∧ (∀ j, n ≤ j → j < xs.length → k < xs.getD j 0)) := by
  intro fuel
  induction fuel with
  | zero =>
    intro left right hf hlr hr hlo hhi
    have hnl : ¬ left < right := by omega
    rw [bsLoop, dif_neg hnl]
    constructor
    · intro m hm; exact Except.noConfusion hm
    · intro n hn
      injection hn with hn
      subst hn
      exact ⟨by omega, hlo, fun j hj1 hj2 => hhi j (by omega) hj2⟩
  | succ fuel ih =>
    intro left right hf hlr hr hlo hhi
    by_cases h : left < right
    · rw [bsLoop, dif_pos h]
      simp only
      set mid := left + (right - left) / 2 with hmid
      have hmlt : mid < right := by omega
      have hmge : left ≤ mid := by omega
      have hmlen : mid < xs.length := by omega
      by_cases h1 : xs.getD mid 0 < k
      · rw [if_pos h1]
        refine ih (mid + 1) right (by omega) (by omega) hr ?_ hhi
        intro j hj
        rcases Nat.lt_or_ge j mid with hj2 | hj2
        · exact lt_of_le_of_lt (sorted_getD_le xs hs (by omega) hmlen) h1
        · have : j = mid := by omega
          subst this; exact h1
      · rw [if_neg h1]
        by_cases h2 : k < xs.getD mid 0
        · rw [if_pos h2]
          refine ih left mid (by omega) (by omega) (by omega) hlo ?_
          intro j hj1 hj2
          exact lt_of_lt_of_le h2 (sorted_getD_le xs hs hj1 hj2)
        · rw [if_neg h2]
          constructor
          · intro m hm
            injection hm with hm
            subst hm
            exact ⟨hmlen, by omega⟩
          · intro n hn; exact Except.noConfusion hn
    · rw [bsLoop, dif_neg h]
      constructor
      · intro m hm; exact Except.noConfusion hm
      · intro n hn
        injection hn with hn
        subst hn
        exact ⟨by omega, hlo, fun j hj1 hj2 => hhi j (by omega) hj2⟩

theorem line_index_greatest (s : Source) (hs : s.line_starts.Pairwise (· < ·))
    (h0 : s.line_starts.getD 0 0 = 0) (hne : 0 < s.line_starts.length) (i : Nat) :
    s.line_index i < s.line_starts.length ∧
    s.line_starts.getD (s.line_index i) 0 ≤ i ∧
    ∀ j, j < s.line_starts.length → s.line_starts.getD j 0 ≤ i → j ≤ s.line_index i := by
  have spec := bsLoop_ok_err s.line_starts i hs s.line_starts.length 0 s.line_starts.length
    (by omega) (by omega) (le_refl _)
    (fun j hj => absurd hj (by omega))
    (fun j hj1 hj2 => absurd hj2 (by omega))
  cases hbs : bsLoop s.line_starts i 0 s.line_starts.length with
  | ok m =>
    have heq : s.line_index i = m := by
      unfold Source.line_index binary_search
      rw [hbs]
    rw [heq]
    obtain ⟨hmlen, hmval⟩ := spec.1 m hbs
    refine ⟨hmlen, by omega, ?_⟩
    intro j hj1 hj2
    by_contra hgt
    have := sorted_getD_lt s.line_starts hs (a := m) (b := j) (by omega) hj1
    omega
  | error n =>
    have heq : s.line_index i = n - 1 := by
      unfold Source.line_index binary_search
      rw [hbs]
    rw [heq]
    obtain ⟨hnlen, hlo, hhi⟩ := spec.2 n hbs
    have hn1 : 1 ≤ n := by
      by_contra hn0
      have := hhi 0 (by omega) hne
      omega
    have hlt : s.line_starts.getD (n - 1) 0 < i := hlo (n - 1) (by omega)
    refine ⟨by omega, by omega, ?_⟩
    intro j hj1 hj2
    by_contra hgt
    have := hhi j (by omega) hj1
    omega

theorem line_start_ok_iff (s : Source) (li v : Nat) :
    s.line_start li = Except.ok v ↔
      (li < s.line_starts.length ∧ v = s.line_starts.getD li 0) ∨
      (li = s.line_starts.length ∧ v = s.text.length) := by
  unfold Source.line_start Source.last_line_index
  by_cases h1 : li < s.line_starts.length
  · rw [if_pos h1]
    constructor
    · intro h; injection h with h; exact Or.inl ⟨h1, h.symm⟩
    · rintro (⟨-, rfl⟩ | ⟨h2, -⟩)
      · rfl
      · omega
  · rw [if_neg h1]
    by_cases h2 : li = s.line_starts.length
    · rw [if_pos h2]
      constructor
      · intro h; injection h with h; exact Or.inr ⟨h2, h.symm⟩
      · rintro (⟨h3, -⟩ | ⟨-, rfl⟩)
        · omega
        · rfl
    · rw [if_neg h2]
      constructor
      · intro h; exact Except.noConfusion h
      · rintro (⟨h3, -⟩ | ⟨h3, -⟩) <;> omega

theorem num_chars_nil : num_chars [] = 0 := by
  rw [num_chars]

theorem num_chars_cons (b : Nat) (rest : List Nat) :
    num_chars (b :: rest) = 1 + num_chars (rest.drop (charTail b)) := by
  rw [num_chars]

theorem naive_num_chars_cons (b : Nat) (rest : List Nat) :
    naive_num_chars (b :: rest) =
      (if b < 128 ∨ 192 ≤ b then 1 else 0) + naive_num_chars rest := by
  unfold naive_num_chars
  rw [List.filter_cons]
  by_cases h : b < 128 ∨ 192 ≤ b
  · rw [if_pos h]
    have : (decide (b < 128) || decide (192 ≤ b)) = true := by
      simp only [Bool.or_eq_true, decide_eq_true_eq]; exact h
    rw [if_pos this]
    simp [Nat.add_comm]
  · rw [if_neg h]
    have : ¬ ((decide (b < 128) || decide (192 ≤ b)) = true) := by
      simp only [Bool.or_eq_true, decide_eq_true_eq]; exact h
    rw [if_neg this]
    simp

theorem num_chars_eq_naive : ∀ {bs : List Nat}, Utf8Valid bs →
    num_chars bs = naive_num_chars bs := by
  intro bs h
  induction h with
  | nil => rw [num_chars_nil]; rfl
  | @one b rest hb _ ih =>
    rw [num_chars_cons, naive_num_chars_cons]
    have ht : charTail b = 0 := by unfold charTail; rw [if_pos hb]
    rw [ht, if_pos (Or.inl hb)]
    simpa using ih
  | @two b c1 rest hb1 hb2 hc1 _ ih =>
    rw [num_chars_cons, naive_num_chars_cons, naive_num_chars_cons]
    have ht : charTail b = 1 := by
      unfold charTail
      rw [if_neg (by omega), if_pos hb2]
    rw [ht]
    obtain ⟨hcl, hcr⟩ := hc1
    rw [if_pos (by omega), if_neg (by omega)]
    simpa using ih
  | @three b c1 c2 rest hb1 hb2 hc1 hc2 _ ih =>
    rw [num_chars_cons, naive_num_chars_cons, naive_num_chars_cons,
      naive_num_chars_cons]
    have ht : charTail b = 2 := by
      unfold charTail
      rw [if_neg (by omega), if_neg (by omega), if_pos hb2]
    rw [ht]
    obtain ⟨hc1l, hc1r⟩ := hc1
    obtain ⟨hc2l, hc2r⟩ := hc2
    rw [if_pos (by omega), if_neg (by omega), if_neg (by omega)]
    simpa using ih
  | @four b c1 c2 c3 rest hb1 hb2 hc1 hc2 hc3 _ ih =>
    rw [num_chars_cons, naive_num_chars_cons, naive_num_chars_cons,
      naive_num_chars_cons, naive_num_chars_cons]
    have ht : charTail b = 3 := by
      unfold charTail
      rw [if_neg (by omega), if_neg (by omega), if_neg (by omega)]
    rw [ht]
    obtain ⟨hc1l, hc1r⟩ := hc1
    obtain ⟨hc2l, hc2r⟩ := hc2
    obtain ⟨hc3l, hc3r⟩ := hc3
    rw [if_pos (by omega), if_neg (by omega), if_neg (by omega), if_neg (by omega)]
    simpa using ih

theorem isCharBoundary_le (xs : List Nat) (i : Nat)
    (h : isCharBoundary xs i = true) : i ≤ xs.length := by
  unfold isCharBoundary at h
  by_cases h0 : i = 0
  · omega
  · rw [if_neg h0] at h
    cases he : xs[i]? with
    | none =>
      rw [he] at h
      simp only [decide_eq_true_eq] at h
      omega
    | some b =>
      have hlt : i < xs.length := by
        by_contra hge
        rw [List.getElem?_eq_none (by omega)] at he
        exact Option.noConfusion he
      omega

/-! ## Claim theorems -/

/-- C1 (counterexample): the claim makes `Source::line_index` fallible, with an
`OutOfBounds` error whenever the byte index exceeds the text length; but at
byte index 100 of the 13-byte demo source the code's `line_index` is total and
returns a line (the doc-test in `source.rs` asserts
`files.line_index(source_id, 100) == LineIndex::from(3)`), never an error. -/
theorem c1_counterexample :
    some (demoSource.line_index 100) ≠ line_index_claimed demoSource 100 := by
  have h : line_index_claimed demoSource 100 = none := by decide
  rw [h]
  simp

/-- C1 (amended): `Source::line_index` is infallible: for every source built by
`Source::new` and every byte index, it returns the index of the greatest
`line_starts` entry that is at most the byte index, so byte indices at or past
the end of the text clamp to the last line instead of producing an error. -/
theorem c1_line_index_total_greatest (nm : String) (text : List Nat)
    (sid : SourceID) (i : Nat) :
    (Source.new nm text sid).line_index i < (lineStarts text).length ∧
    (lineStarts text).getD ((Source.new nm text sid).line_index i) 0 ≤ i ∧
    ∀ j, j < (lineStarts text).length → (lineStarts text).getD j 0 ≤ i →
      j ≤ (Source.new nm text sid).line_index i :=
  line_index_greatest (Source.new nm text sid) (lineStarts_sorted text)
    (lineStarts_head text) (lineStarts_length_pos text) i

/-- C1 (witness): the amended theorem pins the demo source's `line_index` at
byte 100 to line 3, matching the `source.rs` doc-test. -/
theorem c1_witness : demoSource.line_index 100 = 3 := by
  have e : demoSource = Source.new "test" demoText (SourceID.new 0) := rfl
  rw [e]
  have h := c1_line_index_total_greatest "test" demoText (SourceID.new 0) 100
  have h3 := h.2.2 3 (by decide) (by decide)
  have h4 : (lineStarts demoText).length = 4 := by decide
  omega

/-- C4: for every byte index `i` strictly inside the text of a source built by
`Source::new`, `line_index(i)` is the unique line `L` with
`line_start(L) <= i < line_start(L + 1)`; moreover `line_starts` is strictly
increasing and starts at 0. -/
theorem c4_line_index_unique (nm : String) (text : List Nat) (sid : SourceID)
    (i : Nat) (hi : i < text.length) :
    (∃ v, (Source.new nm text sid).line_start
        ((Source.new nm text sid).line_index i) = Except.ok v ∧ v ≤ i) ∧
    (∃ w, (Source.new nm text sid).line_start
        ((Source.new nm text sid).line_index i + 1) = Except.ok w ∧ i < w) ∧
    (∀ L, (∃ v, (Source.new nm text sid).line_start L = Except.ok v ∧ v ≤ i) →
          (∃ w, (Source.new nm text sid).line_start (L + 1) = Except.ok w ∧ i < w) →
          L = (Source.new nm text sid).line_index i) ∧
    (lineStarts text).Pairwise (· < ·) ∧ (lineStarts text).getD 0 0 = 0 := by
  have hs := lineStarts_sorted text
  have h0 := lineStarts_head text
  have hpos := lineStarts_length_pos text
  set s := Source.new nm text sid with hsdef
  have hsl : s.line_starts = lineStarts text := rfl
  have hst : s.text = text := rfl
  obtain ⟨hLlt, hLle, hLmax⟩ :=
    line_index_greatest s (hsl ▸ hs) (hsl ▸ h0) (hsl ▸ hpos) i
  set L := s.line_index i with hLdef
  refine ⟨⟨s.line_starts.getD L 0, ?_, hLle⟩, ?_, ?_, hs, h0⟩
  · rw [line_start_ok_iff]
    exact Or.inl ⟨hLlt, rfl⟩
  · by_cases hnext : L + 1 < s.line_starts.length
    · refine ⟨s.line_starts.getD (L + 1) 0, ?_, ?_⟩
      · rw [line_start_ok_iff]
        exact Or.inl ⟨hnext, rfl⟩
      · by_contra hle
        have := hLmax (L + 1) hnext (by omega)
        omega
    · refine ⟨s.text.length, ?_, ?_⟩
      · rw [line_start_ok_iff]
        exact Or.inr ⟨by omega, rfl⟩
      · rw [hst]
        exact hi
  · rintro L' ⟨v, hv, hvle⟩ ⟨w, hw, hwgt⟩
    rw [line_start_ok_iff] at hv hw
    rcases hv with ⟨hv1, rfl⟩ | ⟨hv1, rfl⟩
    · have hL'le : L' ≤ L := hLmax L' hv1 hvle
      rcases Nat.eq_or_lt_of_le hL'le with heq | hlt
      · exact heq
      · exfalso
        rcases hw with ⟨hw1, rfl⟩ | ⟨hw1, rfl⟩
        · have := sorted_getD_le s.line_starts (hsl ▸ hs)
            (a := L' + 1) (b := L) (by omega) hLlt
          omega
        · omega
    · exfalso
      have : s.text.length = text.length := by rw [hst]
      omega

/-- C4 (witness): at the demo source, byte 9 lies on line 2 — the spec
scenario `line_index(9) == 2` for `"foo\nbar\r\n\nbaz"`. -/
theorem c4_witness : demoSource.line_index 9 = 2 := by
  have e : demoSource = Source.new "test" demoText (SourceID.new 0) := rfl
  rw [e]
  have h := c4_line_index_unique "test" demoText (SourceID.new 0) 9 (by decide)
  exact (h.2.2.1 2 ⟨9, rfl, by omega⟩ ⟨10, rfl, by omega⟩).symm

/-- C8: `Source::new` computes `line_starts` as index 0 followed by one index
per byte immediately following a line-feed byte (membership characterization),
and on the text `"foo\nbar\r\n\nbaz"` it yields `[0, 4, 9, 10]`. -/
theorem c8_line_starts_spec :
    demoSource.line_starts = [0, 4, 9, 10] ∧
    ∀ (nm : String) (sid : SourceID) (text : List Nat) (n : Nat),
      n ∈ (Source.new nm text sid).line_starts ↔
        n = 0 ∨ ∃ k, n = k + 1 ∧ text[k]? = some 10 := by
  constructor
  · decide
  · intro nm sid text n
    exact lineStarts_mem text n

/-- C2 (code bug): merging the spans `[1, 5)` and `[3, 10)` of a 13-byte
source must produce the convex hull `[1, 10)`, as `test_merge` in `tests.rs`
asserts; but `from_start_end` passes the maximum end as the *length* of the
rebuilt slice, so the merged span ends at `min(starts) + max(ends) = 11`
instead of `max(ends) = 10`. -/
theorem c2_merge_end_overshoots :
    (Span.merge ctx13 mergeA mergeB).start = 1 ∧
    (Span.merge ctx13 mergeA mergeB).end_ = 11 ∧
    max mergeA.end_ mergeB.end_ = 10 := by
  refine ⟨rfl, by decide, by decide⟩

/-- C6 (code bug): `test_merge` in `tests.rs` asserts `a.merge(a) == a`, but
merging the span `[1, 5)` with itself yields a span of length
`max(ends) = 5` starting at byte 1 — not the original span of length 4. -/
theorem c6_merge_not_idempotent : Span.merge ctx13 mergeA mergeA ≠ mergeA := by
  decide

/-- C3 (code bug): `line_span(1)` on `"foo\nbar\r\n\nbaz"` must span bytes
`[4, 9)` (the commented doc-test in `source.rs` asserts `Span::new(4, 9)`),
but the code passes `ByteIndex::default()` to `Span::with_start`, so the
returned span reports `start() = 0` and `end() = 5` even though
`line_start(1) = 4` and `line_start(2) = 9`. -/
theorem c3_line_span_start_is_zero :
    demoSource.line_span 1 =
      Except.ok (Span.with_start 0 [98, 97, 114, 13, 10] (SourceID.new 0)) ∧
    demoSource.line_start 1 = Except.ok 4 ∧
    demoSource.line_start 2 = Except.ok 9 ∧
    (Span.with_start 0 [98, 97, 114, 13, 10] (SourceID.new 0)).start = 0 ∧
    (Span.with_start 0 [98, 97, 114, 13, 10] (SourceID.new 0)).end_ = 5 :=
  ⟨rfl, rfl, rfl, rfl, rfl⟩

/-- C5 (counterexample): the claim says slicing never panics and returns a
clipped span for any requested byte range; but (i) requesting `0..100` of the
12-byte span `"hello world!"` hits the panicking `&self[range]` of the
underlying `str` slicing (modelled by `none`) instead of clipping to `0..12`,
and (ii) even the fully in-range request `1..3` of the kana span panics,
because byte 1 sits inside the three-byte first glyph. -/
theorem c5_counterexample :
    Span.slice? helloSpan 0 100 = none ∧ Span.slice? kanaFull 1 3 = none := by
  decide

/-- C5 (amended): `Span::slice` succeeds exactly when the requested range is
not inverted and both endpoints are char boundaries of the fragment (which
forces the end to lie within the fragment); in that case it returns the span
of exactly the requested sub-range (start advanced by the range start, length
equal to the range length, contained in the original span); inverted ranges,
ranges past the end, and endpoints inside a multi-byte character panic rather
than clip. -/
theorem c5_slice_in_range (s : Span) (a b : Nat) :
    (s.slice? a b ≠ none ↔
      a ≤ b ∧ b ≤ s.len ∧
      isCharBoundary s.fragment a = true ∧ isCharBoundary s.fragment b = true) ∧
    ∀ t, s.slice? a b = some t →
      t.start = s.start + a ∧ t.len = b - a ∧ s.start ≤ t.start ∧ t.end_ ≤ s.end_ := by
  unfold Span.slice? strSlice? Span.len Span.end_
  by_cases h : a ≤ b ∧ isCharBoundary s.fragment a = true ∧ isCharBoundary s.fragment b = true
  · rw [if_pos h]
    have hble : b ≤ s.fragment.length := isCharBoundary_le s.fragment b h.2.2
    constructor
    · simp only [ne_eq, reduceCtorEq, not_false_eq_true, true_iff]
      exact ⟨h.1, hble, h.2.1, h.2.2⟩
    · intro t ht
      injection ht with ht
      subst ht
      refine ⟨rfl, ?_, show s.start ≤ s.start + a by omega, ?_⟩
      · simp only [Span.len, List.length_take, List.length_drop]
        omega
      · simp only [Span.len, List.length_take, List.length_drop]
        omega
  · rw [if_neg h]
    constructor
    · simp only [ne_eq, not_true_eq_false, false_iff]
      intro hc
      exact h ⟨hc.1, hc.2.2.1, hc.2.2.2⟩
    · intro t ht
      exact Option.noConfusion ht

/-- C5 (witness): slicing `0..5` of `"hello world!"` (both endpoints ASCII
char boundaries) succeeds and produces the sub-span of length 5 starting
where the original span starts. -/
theorem c5_witness :
    helloSpan.slice? 0 5 ≠ none ∧
    (Span.mk 0 [104, 101, 108, 108, 111] (SourceID.new 0)).start = helloSpan.start + 0 ∧
    (Span.mk 0 [104, 101, 108, 108, 111] (SourceID.new 0)).len = 5 - 0 := by
  have h := c5_slice_in_range helloSpan 0 5
  have h2 := h.2 (Span.mk 0 [104, 101, 108, 108, 111] (SourceID.new 0)) rfl
  exact ⟨h.1.mpr (by decide), h2.1, h2.2.1⟩

/-- C7: over valid UTF-8 the SIMD-friendly column computation
(`get_utf8_column`, via `bytecount::num_chars`) and the naive linear scan
(`naive_get_utf8_column`, via `bytecount::naive_num_chars`) return the same
column: the algorithm choice never changes the observable output. -/
theorem c7_utf8_columns_agree (ctx : List Nat) (s : Span)
    (h : Utf8Valid (s.get_columns_and_bytes_before ctx).2) :
    s.get_utf8_column ctx = s.naive_get_utf8_column ctx := by
  unfold Span.get_utf8_column Span.naive_get_utf8_column
  rw [num_chars_eq_naive h]

/-- C7 (witness): on the kana text `"メカジキ"` (three bytes per glyph) both
column computations for the span starting at byte 6 agree, and the naive one
evaluates to column 3 — the UTF-8-aware column of the spec scenario. -/
theorem c7_witness :
    Span.get_utf8_column kanaCtx kanaSpan = Span.naive_get_utf8_column kanaCtx kanaSpan ∧
    Span.naive_get_utf8_column kanaCtx kanaSpan = 3 := by
  refine ⟨c7_utf8_columns_agree kanaCtx kanaSpan ?_, by decide⟩
  have e : (kanaSpan.get_columns_and_bytes_before kanaCtx).2 =
      [227, 131, 161, 227, 130, 171] := rfl
  rw [e]
  exact Utf8Valid.three (by omega) (by omega) ⟨by omega, by omega⟩ ⟨by omega, by omega⟩
    (Utf8Valid.three (by omega) (by omega) ⟨by omega, by omega⟩ ⟨by omega, by omega⟩
      Utf8Valid.nil)

/-- C10: `Sources::update(id, text)` succeeds for every registered id; it
replaces exactly the source stored at that id — new text, fully recomputed
`line_starts`, name and id untouched — and leaves every other slot of the
registry unchanged. -/
theorem c10_update_frame (ss : Sources) (sid : SourceID) (text : List Nat)
    (h : sid.get < ss.sources.length) :
    ∃ ss', ss.update sid text = some ss' ∧
      ss'.sources.length = ss.sources.length ∧
      (∀ s₀, ss.sources[sid.get]? = some s₀ →
        ss'.sources[sid.get]? =
          some { name := s₀.name, text := text, line_starts := lineStarts text,
                 source_id := s₀.source_id }) ∧
      (∀ j, j ≠ sid.get → ss'.sources[j]? = ss.sources[j]?) := by
  unfold Sources.update
  rw [List.get?_eq_getElem?, List.getElem?_eq_getElem h]
  refine ⟨_, rfl, by simp, ?_, ?_⟩
  · intro s₀ hs₀
    injection hs₀ with hs₀
    subst hs₀
    show (ss.sources.set sid.get (ss.sources[sid.get].update text))[sid.get]? =
      some { name := (ss.sources[sid.get]).name, text := text,
             line_starts := lineStarts text,
             source_id := (ss.sources[sid.get]).source_id }
    rw [List.getElem?_set_self h]
    rfl
  · intro j hj
    exact List.getElem?_set_ne (fun e => hj e.symm)

/-- C10 (witness): updating source 0 of a concrete two-source registry
succeeds, and slot 1 is untouched. -/
theorem c10_witness :
    (twoSources.update (SourceID.new 0) [10, 10]).isSome = true ∧
    ((twoSources.update (SourceID.new 0) [10, 10]).getD twoSources).sources[1]? =
      twoSources.sources[1]? := by
  obtain ⟨ss', h1, h2, h3, h4⟩ :=
    c10_update_frame twoSources (SourceID.new 0) [10, 10] (by decide)
  rw [h1]
  exact ⟨rfl, h4 1 (by decide)⟩
